import Mathlib

/-!
Verification of the expense-extraction engine of the expenseTrackerBackend
repository.  The text pipeline (`handleGetEmailExpense`, `extractAmounts`,
`determineCategory`, `createTitle` from `src/utility/getEmailExpense.ts`) is
embedded over `List Char`; the eleven amount regexes and the merchant-title
regexes are embedded as explicit backtracking matchers that mimic the
JavaScript regex engine (leftmost match, greedy quantifiers with
backtracking, alternation tried left to right).  JavaScript numbers are
modelled as rationals; the amounts produced by the regexes are exact
multiples of 0.01, so the sums, maxima and equality tests of the pipeline
are exact.  The one double-precision subtlety is the 0.01-closeness test of
the total reconciliation: the double comparison of the source agrees with
the exact-rational comparison whenever the exact difference is not
precisely 0.01 (at that boundary double rounding decides, for example
`45 - 44.99` computes below `0.01` in doubles), and no theorem below
asserts anything at that boundary.
The structured pipeline validation (`handleGetInvoiceData` from the vision
path) is embedded over a JSON value model.
-/

set_option maxRecDepth 8000

abbrev Str := List Char

/-- ASCII lowercasing, the behaviour of `String.prototype.toLowerCase` on
the ASCII range: characters `A`-`Z` are shifted to `a`-`z`, everything else
kept (no Unicode lowercasing produces an ASCII capital, which is all the
proofs below rely on). -/
def toLowerChar (c : Char) : Char :=
  if 65 ≤ c.toNat ∧ c.toNat ≤ 90 then Char.ofNat (c.toNat + 32) else c

def toLowerStr (s : Str) : Str := s.map toLowerChar

/-- Character class `\s` of JavaScript regexes (ASCII part plus NBSP). -/
def wsChar (c : Char) : Bool :=
  c.toNat = 32 ∨ c.toNat = 9 ∨ c.toNat = 10 ∨ c.toNat = 13 ∨
  c.toNat = 11 ∨ c.toNat = 12 ∨ c.toNat = 160

/-- Character class `\d`. -/
def digitChar (c : Char) : Bool := 48 ≤ c.toNat ∧ c.toNat ≤ 57

/-- Character class `[A-Z]`. -/
def upperChar (c : Char) : Bool := 65 ≤ c.toNat ∧ c.toNat ≤ 90

/-- Character class `[A-Za-z0-9\s&]` used by the merchant-title patterns. -/
def titleChar (c : Char) : Bool :=
  (65 ≤ c.toNat ∧ c.toNat ≤ 90) ∨ (97 ≤ c.toNat ∧ c.toNat ≤ 122) ∨
  digitChar c ∨ wsChar c ∨ c = '&'

/-- A matcher state: current position in the subject plus the span captured
by the (unique) capturing group of the pattern, when already captured. -/
structure MSt where
  pos : Nat
  cap : Option (Nat × Nat)
deriving DecidableEq

/-- A backtracking matcher: from a state it returns every state a pattern
piece can reach, ordered the way the JavaScript engine tries them. -/
def Matcher : Type := Str → MSt → List MSt

/-- Sequencing of pattern pieces (alternatives in lexicographic order, the
leftmost piece dominating, exactly as regex backtracking does). -/
def seqM (a b : Matcher) : Matcher := fun t s => (a t s).flatMap (b t)

/-- Alternation, tried left to right. -/
def altM (ms : List Matcher) : Matcher := fun t s => ms.flatMap (fun m => m t s)

/-- `(?: ... )?`: try the piece first, then skip it. -/
def optM (m : Matcher) : Matcher := fun t s => m t s ++ [s]

/-- Literal string, optionally case-insensitive (`/i`). -/
def litCmp (ci : Bool) (a b : Char) : Bool :=
  if ci then toLowerChar a = toLowerChar b else a = b

def litAt (ci : Bool) : Str → Str → Bool
  | [], _ => true
  | _ :: _, [] => false
  | k :: ks, c :: cs => litCmp ci k c && litAt ci ks cs

def litM (kw : Str) (ci : Bool) : Matcher := fun t s =>
  if litAt ci kw (t.drop s.pos) then [⟨s.pos + kw.length, s.cap⟩] else []

/-- Length of the maximal run of class characters starting at the front. -/
def runLenAux (p : Char → Bool) : Str → Nat
  | [] => 0
  | c :: cs => if p c then runLenAux p cs + 1 else 0

def runLen (p : Char → Bool) (t : Str) (i : Nat) : Nat := runLenAux p (t.drop i)

/-- Greedy `class*`: longest first, giving back one character at a time. -/
def classStarM (p : Char → Bool) : Matcher := fun t s =>
  let k := runLen p t s.pos
  (List.range (k + 1)).map (fun j => ⟨s.pos + (k - j), s.cap⟩)

/-- Greedy `class+`. -/
def classPlusM (p : Char → Bool) : Matcher := fun t s =>
  let k := runLen p t s.pos
  (List.range k).map (fun j => ⟨s.pos + (k - j), s.cap⟩)

/-- Greedy `class{lo,hi}`. -/
def classRepM (p : Char → Bool) (lo hi : Nat) : Matcher := fun t s =>
  let k := min hi (runLen p t s.pos)
  if k < lo then []
  else (List.range (k + 1 - lo)).map (fun j => ⟨s.pos + (k - j), s.cap⟩)

/-- A single character of a class. -/
def charM (p : Char → Bool) : Matcher := fun t s =>
  match t.drop s.pos with
  | c :: _ => if p c then [⟨s.pos + 1, s.cap⟩] else []
  | [] => []

/-- Capturing group: records the span consumed by the inner piece. -/
def groupM (m : Matcher) : Matcher := fun t s =>
  (m t s).map (fun s2 => ⟨s2.pos, some (s.pos, s2.pos)⟩)

def wsStarM : Matcher := classStarM wsChar

def wsPlusM : Matcher := classPlusM wsChar

/-- `\d{1,3}` (greedy). -/
def digits13M : Matcher := fun t s =>
  let k := min 3 (runLen digitChar t s.pos)
  (List.range k).map (fun j => ⟨s.pos + (k - j), s.cap⟩)

/-- Does `,\d{3}` match at position `i`? -/
def commaGroupAt (t : Str) (i : Nat) : Bool :=
  match t.drop i with
  | ',' :: a :: b :: c :: _ => digitChar a && digitChar b && digitChar c
  | _ => false

def commaRepsCount (t : Str) (i : Nat) : Nat → Nat
  | 0 => 0
  | fuel + 1 => if commaGroupAt t i then commaRepsCount t (i + 4) fuel + 1 else 0

/-- Greedy `(?:,\d{3})*`: each repetition is four characters long. -/
def commaStarM : Matcher := fun t s =>
  let k := commaRepsCount t s.pos (t.length + 1)
  (List.range (k + 1)).map (fun j => ⟨s.pos + 4 * (k - j), s.cap⟩)

/-- `(?:\.\d{2})?` (greedy: with the fraction first, then without). -/
def fracOptM : Matcher := fun t s =>
  match t.drop s.pos with
  | '.' :: a :: b :: _ =>
    if digitChar a && digitChar b then [⟨s.pos + 3, s.cap⟩, s] else [s]
  | _ => [s]

/-- The capturing amount group `(\d{1,3}(?:,\d{3})*(?:\.\d{2})?)` shared by
all eleven amount regexes. -/
def numM : Matcher := groupM (seqM digits13M (seqM commaStarM fracOptM))

/-- First state reached by a pattern at a fixed start position (the match
the backtracking engine commits to). -/
def matchHere (m : Matcher) (t : Str) (i : Nat) : Option MSt :=
  (m t ⟨i, none⟩).head?

/-- `RegExp.exec` scanning: the leftmost position at or after `i` where the
pattern matches, together with the resulting state. -/
def findFrom (m : Matcher) (t : Str) (i : Nat) : Nat → Option (Nat × MSt)
  | 0 => none
  | fuel + 1 =>
    if t.length < i then none
    else
      match matchHere m t i with
      | some st => some (i, st)
      | none => findFrom m t (i + 1) fuel

/-- All matches of a global regex: repeated `exec`, resuming at the end of
the previous match (all our patterns consume at least one character). -/
def execAll (m : Matcher) (t : Str) (i : Nat) : Nat → List (Nat × MSt)
  | 0 => []
  | fuel + 1 =>
    match findFrom m t i (t.length + 1 - i) with
    | none => []
    | some (j, st) => (j, st) :: execAll m t (max st.pos (j + 1)) fuel

def sliceStr (t : Str) (a b : Nat) : Str := (t.drop a).take (b - a)

def kwAltM (kws : List String) : Matcher :=
  altM (kws.map (fun k => litM k.data true))

/-- The tail `\s*\$?\s*(NUM)` shared by the labelling-word regexes. -/
def tailNumM : Matcher :=
  seqM wsStarM (seqM (optM (litM ['$'] false)) (seqM wsStarM numM))

/-- `(?:\s*:|\s+of)?` of the `total` regex. -/
def totalSepM : Matcher :=
  optM (altM [seqM wsStarM (litM [':'] false), seqM wsPlusM (litM "of".data true)])

/-- `(?::|\s+of)?` of the other labelling-word regexes. -/
def kwSepM : Matcher :=
  optM (altM [litM [':'] false, seqM wsPlusM (litM "of".data true)])

/-- `(?:of|:)?` of the `payment` regex. -/
def paymentSepM : Matcher :=
  optM (altM [litM "of".data true, litM [':'] false])

/-- Regex 1: `\$\s*(NUM)`. -/
def dollarNumM : Matcher := seqM (litM ['$'] false) (seqM wsStarM numM)

/-- Regex 2: `(NUM)\s*(?:USD|dollars|dollar)` (case-insensitive). -/
def numCurrencyM : Matcher :=
  seqM numM (seqM wsStarM (kwAltM ["USD", "dollars", "dollar"]))

/-- Regex 3: `total\s*(?:amount|payment|charge|price)?(?:\s*:|\s+of)?\s*\$?\s*(NUM)`. -/
def totalKwM : Matcher :=
  seqM (litM "total".data true)
    (seqM wsStarM
      (seqM (optM (kwAltM ["amount", "payment", "charge", "price"]))
        (seqM totalSepM tailNumM)))

/-- Regexes 4 and 6 to 10: `<word>\s*(?::|\s+of)?\s*\$?\s*(NUM)`. -/
def labelKwM (kw : String) : Matcher :=
  seqM (litM kw.data true) (seqM wsStarM (seqM kwSepM tailNumM))

/-- Regex 5: `payment\s*(?:of|:)?\s*\$?\s*(NUM)`. -/
def paymentKwM : Matcher :=
  seqM (litM "payment".data true) (seqM wsStarM (seqM paymentSepM tailNumM))

/-- Regex 11: `(?:USD|dollars|dollar)\s*(NUM)`. -/
def currencyNumM : Matcher :=
  seqM (kwAltM ["USD", "dollars", "dollar"]) (seqM wsStarM numM)

/-- The ordered regex battery of `extractAmounts`. -/
def amountRegexes : List Matcher :=
  [dollarNumM, numCurrencyM, totalKwM, labelKwM "amount", paymentKwM,
   labelKwM "charged", labelKwM "price", labelKwM "cost", labelKwM "bill",
   labelKwM "invoice", currencyNumM]

/-- One located amount: parsed value, full matched text and match index. -/
structure Cand where
  amount : ℚ
  text : Str
  index : Nat
deriving DecidableEq

def digitsToNat (s : Str) : Nat := s.foldl (fun n c => 10 * n + (c.toNat - 48)) 0

/-- `parseFloat` on the comma-stripped capture of the amount group, which
always has the shape `digits` or `digits.digits`, so the decimal value is
exact. -/
def parseDecimal (s : Str) : ℚ :=
  let ip := s.takeWhile digitChar
  let rest := s.dropWhile digitChar
  match rest with
  | '.' :: fr => (digitsToNat ip : ℚ) + (digitsToNat fr : ℚ) / (10 : ℚ) ^ fr.length
  | _ => (digitsToNat ip : ℚ)

def stripCommas (s : Str) : Str := s.filter (fun c => !(c == ','))

/-- All candidates one global regex pushes: every match whose parsed value
is positive (the `!isNaN(amount) && amount > 0` guard; the capture is
always a well-formed numeral, so only positivity can fail). -/
def candsOfRegex (m : Matcher) (t : Str) : List Cand :=
  (execAll m t 0 (t.length + 1)).filterMap (fun r =>
    match r.2.cap with
    | none => none
    | some (a, b) =>
      let amount := parseDecimal (stripCommas (sliceStr t a b))
      if 0 < amount then some ⟨amount, sliceStr t r.1 r.2.pos, r.1⟩ else none)

/-- `extractAmounts`: run the eleven regexes in order, concatenating each
regex's matches in document order. -/
def extractAmounts (t : Str) : List Cand :=
  amountRegexes.flatMap (fun m => candsOfRegex m t)

/-- The category keyword table, in source order (`categoryKeywords`). -/
def categoryKeywords : List (String × List String) :=
  [("food", ["food", "restaurant", "meal", "lunch", "dinner", "breakfast", "cafe",
             "grocery", "groceries", "takeout", "doordash", "uber eats", "grubhub"]),
   ("rent", ["rent", "lease", "housing", "apartment", "mortgage", "property"]),
   ("travel", ["travel", "flight", "hotel", "airfare", "airline", "booking", "trip",
               "vacation", "uber", "lyft", "taxi", "car rental"]),
   ("utility", ["utility", "electric", "water", "gas", "internet", "phone", "bill",
                "cable", "subscription"]),
   ("entertainment", ["entertainment", "movie", "theatre", "concert", "show", "netflix",
                      "spotify", "hulu", "disney+", "prime", "subscription"]),
   ("shopping", ["shopping", "purchase", "amazon", "store", "retail", "mall", "online",
                 "buy", "bought"]),
   ("health", ["health", "medical", "doctor", "hospital", "pharmacy", "medicine",
               "prescription", "dental", "healthcare"]),
   ("education", ["education", "tuition", "school", "college", "university", "course",
                  "class", "book", "textbook"]),
   ("gift", ["gift", "present", "donation", "charity"]),
   ("fitness", ["fitness", "gym", "workout", "exercise", "sport", "membership"]),
   ("investment", ["investment", "stock", "bond", "mutual fund", "etf", "crypto",
                   "bitcoin", "ethereum", "trading"])]

def startsWithStr : Str → Str → Bool
  | _, [] => true
  | [], _ :: _ => false
  | c :: cs, d :: ds => c = d && startsWithStr cs ds

/-- `String.prototype.includes`. -/
def containsStr : Str → Str → Bool
  | [], needle => needle.isEmpty
  | c :: cs, needle => startsWithStr (c :: cs) needle || containsStr cs needle

/-- The first-match-wins scan of `determineCategory` over a keyword table. -/
def findCategory : List (String × List String) → Str → String
  | [], _ => "unknown"
  | (cat, kws) :: rest, s =>
    if kws.any (fun k => containsStr s k.data) then cat else findCategory rest s

/-- `determineCategory`: first category one of whose keywords occurs in the
text, `unknown` when none does. -/
def determineCategory (s : Str) : String := findCategory categoryKeywords s

def findSubIdx : Str → Str → Option Nat
  | [], pat => if pat.isEmpty then some 0 else none
  | c :: cs, pat =>
    if startsWithStr (c :: cs) pat then some 0 else (findSubIdx cs pat).map (· + 1)

/-- `String.prototype.replace` with a plain-string pattern and empty
replacement: removes the first occurrence, if any. -/
def replaceFirst (t pat : Str) : Str :=
  match findSubIdx t pat with
  | some i => t.take i ++ t.drop (i + pat.length)
  | none => t

/-- `/(?:purchase|payment|transaction|charge)\s+(?:at|to|from)\s+([A-Za-z0-9\s&]+)/i`. -/
def merchantPat1 : Matcher :=
  seqM (kwAltM ["purchase", "payment", "transaction", "charge"])
    (seqM wsPlusM
      (seqM (kwAltM ["at", "to", "from"]) (seqM wsPlusM (groupM (classPlusM titleChar)))))

/-- `/(?:from|at|to)\s+([A-Za-z0-9\s&]+)\s+(?:on|for)/i`. -/
def merchantPat2 : Matcher :=
  seqM (kwAltM ["from", "at", "to"])
    (seqM wsPlusM (seqM (groupM (classPlusM titleChar)) (seqM wsPlusM (kwAltM ["on", "for"]))))

/-- `/([A-Za-z0-9\s&]+)\s+(?:store|restaurant|shop|market)/i`. -/
def merchantPat3 : Matcher :=
  seqM (groupM (classPlusM titleChar)) (seqM wsPlusM (kwAltM ["store", "restaurant", "shop", "market"]))

def merchantPatterns : List Matcher := [merchantPat1, merchantPat2, merchantPat3]

/-- `String.prototype.match` with a non-global regex: capture of the
leftmost match. -/
def captureOf (m : Matcher) (t : Str) : Option Str :=
  match findFrom m t 0 (t.length + 1) with
  | some (_, st) => st.cap.map (fun ab => sliceStr t ab.1 ab.2)
  | none => none

/-- The merchant-pattern loop of `createTitle`: the first pattern with a
nonempty (truthy) capture wins. -/
def merchantLoop : List Matcher → Str → Option Str
  | [], _ => none
  | p :: ps, tw =>
    match captureOf p tw with
    | some cap => if cap.isEmpty then merchantLoop ps tw else some cap
    | none => merchantLoop ps tw

/-- `/([A-Z][A-Za-z0-9\s&]{2,20})/`, the capitalized business-name fallback. -/
def businessNameM : Matcher := groupM (seqM (charM upperChar) (classRepM titleChar 2 20))

/-- `String.prototype.trim`. -/
def trimStr (s : Str) : Str := ((s.dropWhile wsChar).reverse.dropWhile wsChar).reverse

/-- `createTitle`. -/
def createTitle (text amountText : Str) : Str :=
  let textWithoutAmount := replaceFirst text amountText
  match merchantLoop merchantPatterns textWithoutAmount with
  | some cap => trimStr cap
  | none =>
    match captureOf businessNameM textWithoutAmount with
    | some cap => trimStr cap
    | none => "Expense".data

structure ExpenseItem where
  amount : ℚ
  title : Str
  head : String
deriving DecidableEq

structure ExpenseData where
  total : ℚ
  items : List ExpenseItem
deriving DecidableEq

/-- The lowercased 50-character context window around a match (clamped to
the string bounds; natural subtraction is the `Math.max(0, _)` clamp). -/
def surroundingOf (t : Str) (m : Cand) : Str :=
  toLowerStr (sliceStr t (m.index - 50) (min t.length (m.index + m.text.length + 50)))

/-- One line item of the multi-candidate loop. -/
def mkItem (t : Str) (m : Cand) : ExpenseItem :=
  ⟨m.amount, createTitle (surroundingOf t m) m.text, determineCategory (surroundingOf t m)⟩

/-- `sortedAmounts[0].amount`: the comparator sorts by amount descending, so
the head of the sorted array carries the maximal amount. -/
def totalAmountOf : List Cand → ℚ
  | [] => 0
  | m :: ms => ms.foldl (fun a c => max a c.amount) m.amount

/-- The item-construction loop: a candidate is skipped exactly when there
are more than two candidates and its amount equals the provisional total. -/
def buildItems (t : Str) (ms : List Cand) (total : ℚ) : List ExpenseItem :=
  (ms.filter (fun m => !(decide (2 < ms.length) && decide (m.amount = total)))).map (mkItem t)

/-- `handleGetEmailExpense`; `none` models the thrown error (the only throw
reachable from the extraction logic is the no-amount one).  The
reconciliation test `|calculatedTotal - totalAmount| < 0.01` is modelled
over exact rationals; the source evaluates it in double precision, which
agrees with the rational test except possibly when the exact difference is
exactly 0.01, a boundary no theorem below touches. -/
def handleGetEmailExpense (t : Str) : Option ExpenseData :=
  let ms := extractAmounts t
  if ms.length = 0 then none
  else
    let totalAmount := totalAmountOf ms
    let items0 := if 1 < ms.length then buildItems t ms totalAmount else []
    let items := if items0.length = 0
      then [⟨totalAmount, "Expense from email".data, "unknown"⟩] else items0
    let calculatedTotal := items.foldl (fun s it => s + it.amount) 0
    let finalTotal :=
      if |calculatedTotal - totalAmount| < 1 / 100 ∨ 1 < items.length
      then calculatedTotal else totalAmount
    some ⟨finalTotal, items⟩

/-- JSON-like values, the possible results of `extractJSON` in the
structured (vision) pipeline. -/
inductive Json where
  | num (q : ℚ)
  | str (s : String)
  | bool (b : Bool)
  | null
  | arr (xs : List Json)
  | obj (fields : List (String × Json))

def lookupField : List (String × Json) → String → Option Json
  | [], _ => none
  | (k2, v) :: rest, k => if k2 = k then some v else lookupField rest k

/-- Property access `value.key`; `none` models `undefined`. -/
def getField : Json → String → Option Json
  | .obj fs, k => lookupField fs k
  | _, _ => none

/-- JavaScript truthiness of a possibly-undefined value. -/
def truthy : Option Json → Bool
  | none => false
  | some (.num q) => !(q == 0)
  | some (.str s) => !(s == "")
  | some (.bool b) => b
  | some .null => false
  | some (.arr _) => true
  | some (.obj _) => true

def parseUnsigned (s : Str) : Option ℚ :=
  let ip := s.takeWhile digitChar
  let rest := s.dropWhile digitChar
  match rest with
  | [] => if ip.isEmpty then none else some (digitsToNat ip)
  | '.' :: fr =>
    if fr.all digitChar && !(ip.isEmpty && fr.isEmpty) then
      some ((digitsToNat ip : ℚ) + (digitsToNat fr : ℚ) / (10 : ℚ) ^ fr.length)
    else none
  | _ => none

/-- `Number(string)` on plain decimal literals: trimmed, empty gives `0`,
optional sign, otherwise a decimal numeral or NaN (`none`). -/
def numberOfString (s : String) : Option ℚ :=
  match trimStr s.data with
  | [] => some 0
  | '-' :: r => (parseUnsigned r).map (fun q => -q)
  | '+' :: r => parseUnsigned r
  | t => parseUnsigned t

/-- `Number(value)` coercion on JSON values (`none` models NaN). -/
def toNumberJson : Json → Option ℚ
  | .num q => some q
  | .str s => numberOfString s
  | .bool b => some (if b then 1 else 0)
  | .null => some 0
  | .arr [] => some 0
  | .arr [x] => toNumberJson x
  | .arr (_ :: _ :: _) => none
  | .obj _ => none

def toNumberJS : Option Json → Option ℚ
  | none => none
  | some j => toNumberJson j

/-- The fixed category vocabulary (`validHeads`). -/
def validHeads : List String :=
  ["food", "rent", "travel", "utility", "entertainment", "shopping", "health",
   "education", "gift", "fitness", "investment", "unknown"]

/-- Failure modes of the structured-path validation: the explicit
required-fields throw, and a TypeError from `item.head.toLowerCase()` when
`head` is not a string. -/
inductive InvErr where
  | invalidResult
  | typeError
deriving DecidableEq

structure InvoiceItem where
  amount : Option ℚ
  title : Option Json
  head : String

structure InvoiceData where
  total : Option ℚ
  items : List InvoiceItem

def lowerString (s : String) : String := ⟨toLowerStr s.data⟩

/-- One step of the `parsedData.items.map(...)` normalization. -/
def validateItem (it : Json) : Except InvErr InvoiceItem :=
  match getField it "head" with
  | some (.str s) =>
    .ok ⟨toNumberJS (getField it "amount"), getField it "title",
         if validHeads.contains (lowerString s) then lowerString s else "unknown"⟩
  | _ => .error .typeError

/-- The post-parse validation of `handleGetInvoiceData` (the code after
`extractJSON`): reject when the parse produced nothing, `total` is falsy,
or `items` is not a non-empty array; otherwise coerce `total` and the item
amounts with `Number` and clamp out-of-vocabulary categories. -/
def validateInvoiceData (parsed : Option Json) : Except InvErr InvoiceData :=
  match parsed with
  | none => .error .invalidResult
  | some j =>
    if truthy (getField j "total") = false then .error .invalidResult
    else
      match getField j "items" with
      | some (.arr items) =>
        if items.length = 0 then .error .invalidResult
        else
          match items.mapM validateItem with
          | .ok its => .ok ⟨toNumberJS (getField j "total"), its⟩
          | .error e => .error e
      | _ => .error .invalidResult

/-- C9: on the input `$1234.56` the amount scanner returns exactly one
candidate, whose value is 123 (the quantifier `\d{1,3}` captures only the
first three digits and nothing re-captures the rest). -/
theorem extractAmounts_truncates_long_integer_part :
    extractAmounts "$1234.56".data = [⟨123, "$123".data, 0⟩] := by
  with_unfolding_all decide

/-- C1, counterexample: on `Your payment of $45.00 was successful` the
pipeline does not return a single synthetic item with total 45: the dollar
regex and the `payment` regex both match, so there are two candidates. -/
theorem handleGetEmailExpense_p3_counterexample :
    ¬ handleGetEmailExpense "Your payment of $45.00 was successful".data =
        some ⟨45, [⟨45, "Expense from email".data, "unknown"⟩]⟩ := by
  with_unfolding_all decide

/-- C1, amended: on `Your payment of $45.00 was successful` the amount scan
yields two overlapping candidates of value 45 (`$45.00` and
`payment of $45.00`), so the pipeline returns total 90 with two line items
of amount 45, title `Expense` and category `unknown`. -/
theorem handleGetEmailExpense_p3_actual :
    handleGetEmailExpense "Your payment of $45.00 was successful".data =
      some ⟨90, [⟨45, "Expense".data, "unknown"⟩, ⟨45, "Expense".data, "unknown"⟩]⟩ := by
  with_unfolding_all rfl

/-- C2, counterexample: on `$45.00 $45.00 $30.00` there are three
candidates; both maximal candidates are skipped, one item of 30 remains,
and the returned total is the provisional total 45, not the item sum 30
(the difference 15 is far from the 0.01 reconciliation threshold, where
double and exact arithmetic agree). -/
theorem handleGetEmailExpense_total_vs_sum_counterexample :
    2 < (extractAmounts "$45.00 $45.00 $30.00".data).length ∧
    handleGetEmailExpense "$45.00 $45.00 $30.00".data =
      some ⟨45, [⟨30, "Expense".data, "unknown"⟩]⟩ ∧
    ¬ (45 : ℚ) = 30 :=
  ⟨by with_unfolding_all decide, by with_unfolding_all rfl, by with_unfolding_all decide⟩

/-- C4, counterexample: on `$45.00 $45.00` every candidate has the single
distinct value 45, yet the pipeline returns two computed line items (total
90), not the one synthetic `Expense from email` item. -/
theorem handleGetEmailExpense_two_equal_candidates_counterexample :
    extractAmounts "$45.00 $45.00".data =
      [⟨45, "$45.00".data, 0⟩, ⟨45, "$45.00".data, 7⟩] ∧
    handleGetEmailExpense "$45.00 $45.00".data =
      some ⟨90, [⟨45, "Expense".data, "unknown"⟩, ⟨45, "Expense".data, "unknown"⟩]⟩ ∧
    ¬ handleGetEmailExpense "$45.00 $45.00".data =
        some ⟨45, [⟨45, "Expense from email".data, "unknown"⟩]⟩ :=
  ⟨by with_unfolding_all rfl, by with_unfolding_all rfl, by with_unfolding_all decide⟩

/-- C8, counterexample: `determineCategory` is not case-insensitive as a
function of its own input; the pipeline obtains case-insensitivity only by
lowercasing before the call. -/
theorem determineCategory_case_sensitive_counterexample :
    determineCategory "FOOD".data = "unknown" ∧
    determineCategory (toLowerStr "FOOD".data) = "food" ∧
    ¬ determineCategory "FOOD".data = determineCategory (toLowerStr "FOOD".data) :=
  ⟨by with_unfolding_all rfl, by with_unfolding_all rfl, by with_unfolding_all decide⟩

/-- C5, counterexample: the structured-path validation only checks that
`total` is truthy, so a parsed structure with a negative total passes
post-validation and is returned with a total below zero. -/
theorem validateInvoiceData_negative_total_counterexample :
    validateInvoiceData (some (Json.obj [("total", Json.num (-5)),
        ("items", Json.arr [Json.obj [("amount", Json.num 1), ("title", Json.str "x"),
          ("head", Json.str "food")]])])) =
      Except.ok ⟨some (-5), [⟨some 1, some (Json.str "x"), "food"⟩]⟩ ∧
    ¬ (0 : ℚ) ≤ -5 :=
  ⟨by with_unfolding_all rfl, by with_unfolding_all decide⟩

/-- C6, counterexample: a parsed structure whose `total` is the number 0
(present and numeric) with a non-empty `items` array is rejected with the
required-fields failure, because the code tests truthiness of `total`, not
presence or numericity. -/
theorem validateInvoiceData_zero_total_counterexample :
    getField (Json.obj [("total", Json.num 0),
        ("items", Json.arr [Json.obj [("amount", Json.num 5), ("title", Json.str "x"),
          ("head", Json.str "food")]])]) "total" = some (Json.num 0) ∧
    getField (Json.obj [("total", Json.num 0),
        ("items", Json.arr [Json.obj [("amount", Json.num 5), ("title", Json.str "x"),
          ("head", Json.str "food")]])]) "items" =
      some (Json.arr [Json.obj [("amount", Json.num 5), ("title", Json.str "x"),
        ("head", Json.str "food")]]) ∧
    validateInvoiceData (some (Json.obj [("total", Json.num 0),
        ("items", Json.arr [Json.obj [("amount", Json.num 5), ("title", Json.str "x"),
          ("head", Json.str "food")]])])) = Except.error InvErr.invalidResult :=
  ⟨by with_unfolding_all rfl, by with_unfolding_all rfl, by with_unfolding_all rfl⟩

theorem findCategory_mem (L : List (String × List String)) (s : Str) :
    findCategory L s ∈ L.map Prod.fst ++ ["unknown"] := by
  induction L with
  | nil => simp [findCategory]
  | cons p rest ih =>
    obtain ⟨cat, kws⟩ := p
    simp only [findCategory]
    split
    · simp
    · simp only [List.map_cons, List.cons_append, List.mem_cons]
      exact Or.inr (by simpa using ih)

theorem findCategory_unknown (L : List (String × List String)) (s : Str)
    (h : ∀ p ∈ L, ∀ k ∈ p.2, containsStr s k.data = false) :
    findCategory L s = "unknown" := by
  induction L with
  | nil => rfl
  | cons p rest ih =>
    obtain ⟨cat, kws⟩ := p
    simp only [findCategory]
    rw [if_neg, ih]
    · intro q hq k hk
      exact h q (by simp [hq]) k hk
    · intro hany
      obtain ⟨k, hk, hks⟩ := List.any_eq_true.mp hany
      have := h ⟨cat, kws⟩ (by simp) k hk
      rw [this] at hks
      cases hks

/-- C7: `determineCategory` always returns a member of the fixed category
set (the eleven table categories plus `unknown`), and returns `unknown`
when no keyword of the table occurs in the text; being a total function of
the embedding, it never throws. -/
theorem determineCategory_mem_fixed_set :
    (∀ s : Str, determineCategory s ∈ ["food", "rent", "travel", "utility",
      "entertainment", "shopping", "health", "education", "gift", "fitness",
      "investment", "unknown"]) ∧
    (∀ s : Str, (∀ p ∈ categoryKeywords, ∀ k ∈ p.2, containsStr s k.data = false) →
      determineCategory s = "unknown") := by
  constructor
  · intro s
    have h := findCategory_mem categoryKeywords s
    simpa [categoryKeywords] using h
  · intro s h
    exact findCategory_unknown categoryKeywords s h

/-- Witness for the classification theorem at the keyword-free text `zz`. -/
theorem determineCategory_mem_fixed_set_witness :
    determineCategory "zz".data ∈ ["food", "rent", "travel", "utility",
      "entertainment", "shopping", "health", "education", "gift", "fitness",
      "investment", "unknown"] ∧
    determineCategory "zz".data = "unknown" :=
  ⟨determineCategory_mem_fixed_set.1 "zz".data,
   determineCategory_mem_fixed_set.2 "zz".data (by decide)⟩

theorem charOfNat_toNat {n : Nat} (h : n < 55296) : (Char.ofNat n).toNat = n := by
  have hv : n.isValidChar := Or.inl h
  simp [Char.ofNat, hv, Char.ofNatAux, Char.toNat, UInt32.toNat]

theorem toLowerChar_not_upper (c : Char) : upperChar (toLowerChar c) = false := by
  simp only [upperChar, toLowerChar, decide_eq_false_iff_not]
  split
  · next h =>
    rw [charOfNat_toNat (by omega)]
    omega
  · next h => exact h

theorem toLowerChar_idem (c : Char) : toLowerChar (toLowerChar c) = toLowerChar c := by
  have h := toLowerChar_not_upper c
  simp only [upperChar, decide_eq_false_iff_not] at h
  rw [toLowerChar, if_neg h]

theorem toLowerStr_idem (s : Str) : toLowerStr (toLowerStr s) = toLowerStr s := by
  induction s with
  | nil => rfl
  | cons c cs ih =>
    show toLowerChar (toLowerChar c) :: toLowerStr (toLowerStr cs) = _
    rw [toLowerChar_idem, ih]
    rfl

/-- C8, amended: `determineCategory` itself is case-sensitive (its keywords
are lowercase and matched verbatim); the pipeline lowercases every context
window before classifying, and that composite classification is insensitive
to further case-normalization of the input. -/
theorem determineCategory_lowercase_insensitive (s : Str) :
    determineCategory (toLowerStr s) = determineCategory (toLowerStr (toLowerStr s)) := by
  rw [toLowerStr_idem]

theorem mkItem_amount (t : Str) (m : Cand) : (mkItem t m).amount = m.amount := rfl

theorem mkItem_def (t : Str) (m : Cand) :
    mkItem t m = ⟨m.amount, createTitle (surroundingOf t m) m.text,
      determineCategory (surroundingOf t m)⟩ := rfl

theorem mkItem_title (t : Str) (m : Cand) :
    (mkItem t m).title = createTitle (surroundingOf t m) m.text := by
  rw [mkItem_def]

theorem buildItems_of_not_gt_two (t : Str) (ms : List Cand) (total : ℚ)
    (h : ¬ 2 < ms.length) : buildItems t ms total = ms.map (mkItem t) := by
  unfold buildItems
  rw [List.filter_eq_self.mpr]
  intro m _
  simp [h]

/-- C3: with exactly two candidates both are retained as line items, in
order, whatever their values (in particular when one of them equals the
provisional total). -/
theorem handleGetEmailExpense_two_candidates (t : Str)
    (h : (extractAmounts t).length = 2) :
    ∃ d, handleGetEmailExpense t = some d ∧
      d.items.map ExpenseItem.amount = (extractAmounts t).map Cand.amount ∧
      d.items.length = 2 := by
  have h0 : ¬ (extractAmounts t).length = 0 := by omega
  have h1 : 1 < (extractAmounts t).length := by omega
  have h2 : ¬ 2 < (extractAmounts t).length := by omega
  simp only [handleGetEmailExpense]
  rw [if_neg h0, if_pos h1, buildItems_of_not_gt_two t _ _ h2]
  have hlen : ((extractAmounts t).map (mkItem t)).length = 2 := by
    rw [List.length_map]; exact h
  rw [if_neg (by omega : ¬ ((extractAmounts t).map (mkItem t)).length = 0)]
  rw [if_pos (Or.inr (by omega : 1 < ((extractAmounts t).map (mkItem t)).length))]
  refine ⟨_, rfl, ?_, hlen⟩
  rw [List.map_map]
  rfl

/-- C4, amended: when the candidates all share one distinct value and their
number is not exactly two, the pipeline returns the single synthetic
`Expense from email` line item carrying the provisional total (with exactly
two equal-valued candidates, both are kept as computed items instead). -/
theorem handleGetEmailExpense_single_value_synthetic (t : Str)
    (h0 : ¬ (extractAmounts t).length = 0) (h2 : ¬ (extractAmounts t).length = 2)
    (hall : ∀ m ∈ extractAmounts t, m.amount = totalAmountOf (extractAmounts t)) :
    handleGetEmailExpense t =
      some ⟨totalAmountOf (extractAmounts t),
        [⟨totalAmountOf (extractAmounts t), "Expense from email".data, "unknown"⟩]⟩ := by
  simp only [handleGetEmailExpense]
  rw [if_neg h0]
  by_cases h1 : 1 < (extractAmounts t).length
  · have h3 : 2 < (extractAmounts t).length := by omega
    rw [if_pos h1]
    have hfil : buildItems t (extractAmounts t) (totalAmountOf (extractAmounts t)) = [] := by
      unfold buildItems
      rw [List.filter_eq_nil_iff.mpr, List.map_nil]
      intro m hm
      simp [h3, hall m hm]
    rw [hfil]
    simp only [List.length_nil, if_pos rfl]
    rw [if_pos]
    · simp
    · left
      norm_num
  · rw [if_neg h1]
    simp only [List.length_nil, if_pos rfl]
    rw [if_pos]
    · simp
    · left
      norm_num

theorem buildItems_of_gt_two (t : Str) (ms : List Cand) (total : ℚ)
    (h : 2 < ms.length) :
    buildItems t ms total = (ms.filter (fun m => !decide (m.amount = total))).map (mkItem t) := by
  unfold buildItems
  congr 1
  apply List.filter_congr
  intro m _
  simp [h]

theorem foldl_add_amount (items : List ExpenseItem) (a : ℚ) :
    items.foldl (fun s it => s + it.amount) a = a + (items.map ExpenseItem.amount).sum := by
  induction items generalizing a with
  | nil => simp
  | cons it rest ih => simp [ih, add_assoc]

/-- C2, amended: with more than two candidates, every candidate whose value
equals the provisional total is skipped (the items are exactly the
non-maximal candidates, or the one synthetic item when every candidate is
maximal).  The returned total equals the sum of the retained item amounts
whenever at least two items are retained, and also when no candidate
survives the skip (the synthetic item carries the provisional total); when
exactly one item is retained and its amount is more than 0.01 away from
the provisional total, the provisional total is returned instead.  With
exactly one retained item at exactly 0.01 from the provisional total the
source decides by double rounding, and nothing is asserted. -/
theorem handleGetEmailExpense_gt_two_candidates (t : Str)
    (h : 2 < (extractAmounts t).length) :
    ∃ d, handleGetEmailExpense t = some d ∧
      d.items.map ExpenseItem.amount =
        (if (extractAmounts t).filter
            (fun m => !decide (m.amount = totalAmountOf (extractAmounts t))) = []
         then [totalAmountOf (extractAmounts t)]
         else ((extractAmounts t).filter
            (fun m => !decide (m.amount = totalAmountOf (extractAmounts t)))).map Cand.amount) ∧
      (2 ≤ d.items.length → d.total = (d.items.map ExpenseItem.amount).sum) ∧
      ((extractAmounts t).filter
          (fun m => !decide (m.amount = totalAmountOf (extractAmounts t))) = [] →
        d.total = totalAmountOf (extractAmounts t)) ∧
      (∀ m0, (extractAmounts t).filter
          (fun m => !decide (m.amount = totalAmountOf (extractAmounts t))) = [m0] →
        1 / 100 < |m0.amount - totalAmountOf (extractAmounts t)| →
        d.total = totalAmountOf (extractAmounts t)) := by
  have h0 : ¬ (extractAmounts t).length = 0 := by omega
  have h1 : 1 < (extractAmounts t).length := by omega
  simp only [handleGetEmailExpense]
  rw [if_neg h0, if_pos h1, buildItems_of_gt_two t _ _ h]
  set r := (extractAmounts t).filter
      (fun m => !decide (m.amount = totalAmountOf (extractAmounts t))) with hr
  by_cases hre : r = []
  · rw [hre]
    simp only [List.map_nil, List.length_nil, if_pos rfl]
    refine ⟨_, rfl, ?_, ?_, ?_, ?_⟩
    · simp
    · intro h2
      simp at h2
    · intro _
      rw [if_pos]
      · simp
      · left
        norm_num
    · intro m0 hm0 _
      simp at hm0
  · have hlen0 : ¬ (r.map (mkItem t)).length = 0 := by
      rw [List.length_map]
      intro hh
      exact hre (List.length_eq_zero.mp hh)
    rw [if_neg hlen0]
    refine ⟨_, rfl, ?_, ?_, ?_, ?_⟩
    · rw [if_neg hre, List.map_map]
      rfl
    · intro h2
      have h2b : 2 ≤ (r.map (mkItem t)).length := h2
      rw [if_pos (Or.inr (by omega : 1 < (r.map (mkItem t)).length)), foldl_add_amount]
      simp
    · intro hre2
      exact absurd hre2 hre
    · intro m0 hm0 hgt
      rw [hm0]
      rw [if_neg]
      intro hcond
      rcases hcond with hlt | hlen
      · simp only [List.map_cons, List.map_nil, List.foldl_cons, List.foldl_nil,
          mkItem_amount, zero_add] at hlt
        exact absurd hlt (lt_asymm hgt)
      · simp at hlen

theorem extractAmounts_pos (t : Str) : ∀ m ∈ extractAmounts t, 0 < m.amount := by
  intro m hm
  unfold extractAmounts at hm
  rw [List.mem_flatMap] at hm
  obtain ⟨reg, _, hm2⟩ := hm
  unfold candsOfRegex at hm2
  rw [List.mem_filterMap] at hm2
  obtain ⟨r, _, hm3⟩ := hm2
  cases hcap : r.2.cap with
  | none => rw [hcap] at hm3; cases hm3
  | some ab =>
    rw [hcap] at hm3
    simp only [] at hm3
    split at hm3
    · next hpos =>
      cases hm3
      exact hpos
    · cases hm3

theorem foldl_max_eq (ms : List Cand) (a : ℚ) :
    List.foldl (fun x c => max x c.amount) a ms = a ∨
    ∃ m ∈ ms, List.foldl (fun x c => max x c.amount) a ms = m.amount := by
  induction ms generalizing a with
  | nil => left; rfl
  | cons c cs ih =>
    rcases ih (max a c.amount) with hh | ⟨m, hm, he⟩
    · rcases max_choice a c.amount with h1 | h1
      · left
        simpa [List.foldl] using hh.trans h1
      · right
        exact ⟨c, by simp, by simpa [List.foldl] using hh.trans h1⟩
    · right
      exact ⟨m, by simp [hm], by simpa [List.foldl] using he⟩

theorem totalAmountOf_mem (ms : List Cand) (h : ms ≠ []) :
    ∃ m ∈ ms, totalAmountOf ms = m.amount := by
  match ms with
  | m :: rest =>
    unfold totalAmountOf
    rcases foldl_max_eq rest m.amount with hh | ⟨m2, hm2, he⟩
    · exact ⟨m, by simp, hh⟩
    · exact ⟨m2, by simp [hm2], he⟩

theorem mapM_validateItem_length (l : List Json) :
    ∀ its, l.mapM validateItem = Except.ok its → its.length = l.length := by
  induction l with
  | nil =>
    intro its h
    simp only [List.mapM_nil, pure, Except.pure] at h
    cases h
    rfl
  | cons a as ih =>
    intro its h
    rw [List.mapM_cons] at h
    cases hva : validateItem a with
    | error e => rw [hva] at h; simp [Bind.bind, Except.bind] at h
    | ok b =>
      rw [hva] at h
      cases hvas : as.mapM validateItem with
      | error e =>
        rw [hvas] at h
        simp [Bind.bind, Except.bind, pure, Except.pure] at h
      | ok bs =>
        rw [hvas] at h
        simp only [Bind.bind, Except.bind, pure, Except.pure] at h
        cases h
        simp [ih bs hvas]

theorem validateInvoiceData_some (j : Json) :
    validateInvoiceData (some j) =
      (if truthy (getField j "total") = false then Except.error InvErr.invalidResult
       else
         match getField j "items" with
         | some (Json.arr items) =>
           if items.length = 0 then Except.error InvErr.invalidResult
           else
             match items.mapM validateItem with
             | Except.ok its => Except.ok ⟨toNumberJS (getField j "total"), its⟩
             | Except.error e => Except.error e
         | _ => Except.error InvErr.invalidResult) := rfl

/-- C5, amended: whenever the text pipeline succeeds the result has a
non-empty items list and a strictly positive total; whenever the
structured-path validation succeeds the items list is non-empty, but the
returned total is only the `Number` coercion of a truthy value and need not
be non-negative (or a number at all). -/
theorem extraction_success_invariants :
    (∀ t d, handleGetEmailExpense t = some d → d.items ≠ [] ∧ 0 < d.total) ∧
    (∀ p d, validateInvoiceData p = Except.ok d → d.items ≠ []) := by
  constructor
  · intro t d hd
    have hms : extractAmounts t ≠ [] := by
      intro hnil
      rw [handleGetEmailExpense, hnil] at hd
      simp at hd
    have h0 : ¬ (extractAmounts t).length = 0 := by
      simpa [List.length_eq_zero] using hms
    obtain ⟨mx, hmx, hmxe⟩ := totalAmountOf_mem (extractAmounts t) hms
    have htot : 0 < totalAmountOf (extractAmounts t) :=
      hmxe ▸ extractAmounts_pos t mx hmx
    simp only [handleGetEmailExpense] at hd
    rw [if_neg h0] at hd
    have hpos0 : ∀ it ∈ (if 1 < (extractAmounts t).length
        then buildItems t (extractAmounts t) (totalAmountOf (extractAmounts t)) else []),
        0 < it.amount := by
      split
      · intro it hit
        unfold buildItems at hit
        rw [List.mem_map] at hit
        obtain ⟨m, hm, rfl⟩ := hit
        rw [mkItem_amount]
        exact extractAmounts_pos t m (List.mem_filter.mp hm).1
      · intro it hit
        cases hit
    generalize hI : (if 1 < (extractAmounts t).length
        then buildItems t (extractAmounts t) (totalAmountOf (extractAmounts t)) else []) =
      items0 at hd hpos0
    have hposI : ∀ it ∈ (if items0.length = 0
        then [(⟨totalAmountOf (extractAmounts t), "Expense from email".data,
          "unknown"⟩ : ExpenseItem)] else items0), 0 < it.amount := by
      split
      · intro it hit
        rw [List.mem_singleton] at hit
        subst hit
        exact htot
      · exact hpos0
    have hneI : (if items0.length = 0
        then [(⟨totalAmountOf (extractAmounts t), "Expense from email".data,
          "unknown"⟩ : ExpenseItem)] else items0) ≠ [] := by
      split
      · simp
      · next hh => simpa [List.length_eq_zero] using hh
    generalize hJ : (if items0.length = 0
        then [(⟨totalAmountOf (extractAmounts t), "Expense from email".data,
          "unknown"⟩ : ExpenseItem)] else items0) = items at hd hposI hneI
    have hd2 := Option.some.inj hd
    subst hd2
    refine ⟨hneI, ?_⟩
    show 0 < (if |List.foldl (fun s it => s + it.amount) 0 items -
        totalAmountOf (extractAmounts t)| < 1 / 100 ∨ 1 < items.length
      then List.foldl (fun s it => s + it.amount) 0 items
      else totalAmountOf (extractAmounts t))
    split
    · rw [foldl_add_amount, zero_add]
      apply List.sum_pos
      · intro q hq
        rw [List.mem_map] at hq
        obtain ⟨it, hit, rfl⟩ := hq
        exact hposI it hit
      · simpa using hneI
    · exact htot
  · intro p d hpd
    cases p with
    | none => simp [validateInvoiceData] at hpd
    | some j =>
      rw [validateInvoiceData_some] at hpd
      split at hpd
      · cases hpd
      · split at hpd
        · next items heqf =>
          split at hpd
          · cases hpd
          · next hlen =>
            split at hpd
            · next its hok =>
              have hd2 := Except.ok.inj hpd
              subst hd2
              show its ≠ []
              have hli := mapM_validateItem_length items its hok
              intro hnil
              rw [hnil] at hli
              simp at hli
              omega
            · cases hpd
        · cases hpd

/-- The rejection condition of the amended claim C6, stated independently
of the code: no parse, falsy `total`, or `items` not a non-empty array. -/
def semanticallyIncomplete (parsed : Option Json) : Bool :=
  match parsed with
  | none => true
  | some j =>
    !truthy (getField j "total") ||
    (match getField j "items" with
     | some (Json.arr l) => l.isEmpty
     | _ => true)

theorem validateItem_error (a : Json) (e : InvErr)
    (h : validateItem a = Except.error e) : e = InvErr.typeError := by
  unfold validateItem at h
  split at h
  · cases h
  · cases h
    rfl

theorem mapM_validateItem_error (l : List Json) (e : InvErr)
    (h : l.mapM validateItem = Except.error e) : e = InvErr.typeError := by
  induction l generalizing e with
  | nil =>
    simp only [List.mapM_nil, pure, Except.pure] at h
    cases h
  | cons a as ih =>
    rw [List.mapM_cons] at h
    cases hva : validateItem a with
    | error e2 =>
      rw [hva] at h
      simp only [Bind.bind, Except.bind] at h
      cases h
      exact validateItem_error a _ hva
    | ok b =>
      rw [hva] at h
      cases hvas : as.mapM validateItem with
      | error e2 =>
        rw [hvas] at h
        simp only [Bind.bind, Except.bind, pure, Except.pure] at h
        cases h
        exact ih _ hvas
      | ok bs =>
        rw [hvas] at h
        simp only [Bind.bind, Except.bind, pure, Except.pure] at h
        cases h

theorem mapM_validateItem_ok (l : List Json)
    (h : ∀ it ∈ l, ∃ s, getField it "head" = some (Json.str s)) :
    ∃ its, l.mapM validateItem = Except.ok its ∧ ∀ x ∈ its, x.head ∈ validHeads := by
  induction l with
  | nil => exact ⟨[], by simp only [List.mapM_nil, pure, Except.pure], by simp⟩
  | cons a as ih =>
    obtain ⟨s, hs⟩ := h a (by simp)
    obtain ⟨its, hits, hall⟩ := ih (fun it hit => h it (by simp [hit]))
    refine ⟨⟨toNumberJS (getField a "amount"), getField a "title",
        if validHeads.contains (lowerString s) then lowerString s else "unknown"⟩ :: its, ?_, ?_⟩
    · rw [List.mapM_cons]
      have hva : validateItem a = Except.ok ⟨toNumberJS (getField a "amount"),
          getField a "title",
          if validHeads.contains (lowerString s) then lowerString s else "unknown"⟩ := by
        unfold validateItem
        rw [hs]
      rw [hva, hits]
      rfl
    · intro x hx
      rcases List.mem_cons.mp hx with rfl | hx2
      · show (if validHeads.contains (lowerString s) then lowerString s else "unknown")
            ∈ validHeads
        split
        · next hc => exact List.mem_of_elem_eq_true hc
        · simp [validHeads]
      · exact hall x hx2

/-- C6, amended: after parsing, the call fails with the required-fields
error exactly when nothing was parsed, the parsed total is falsy, or the
items value is not a non-empty array; numericity of the total is not
checked.  When the total is truthy and the items form a non-empty array of
objects with string categories, post-validation succeeds, coercing the
total with `Number` and clamping every category into the fixed
vocabulary. -/
theorem validateInvoiceData_characterization :
    (∀ p, validateInvoiceData p = Except.error InvErr.invalidResult ↔
      semanticallyIncomplete p = true) ∧
    (∀ j items, getField j "items" = some (Json.arr items) →
      truthy (getField j "total") = true → ¬ items.length = 0 →
      (∀ it ∈ items, ∃ s, getField it "head" = some (Json.str s)) →
      ∃ d, validateInvoiceData (some j) = Except.ok d ∧
        d.total = toNumberJS (getField j "total") ∧
        d.items.length = items.length ∧
        ∀ x ∈ d.items, x.head ∈ validHeads) := by
  constructor
  · intro p
    cases p with
    | none => simp [validateInvoiceData, semanticallyIncomplete]
    | some j =>
      rw [validateInvoiceData_some]
      by_cases htr : truthy (getField j "total") = false
      · rw [if_pos htr]
        simp [semanticallyIncomplete, htr]
      · rw [if_neg htr]
        have ht2 : truthy (getField j "total") = true := by
          revert htr
          cases truthy (getField j "total") <;> simp
        cases hgf : getField j "items" with
        | none => simp [semanticallyIncomplete, hgf, ht2]
        | some v =>
          cases v with
          | num q => simp [semanticallyIncomplete, hgf, ht2]
          | str s => simp [semanticallyIncomplete, hgf, ht2]
          | bool b => simp [semanticallyIncomplete, hgf, ht2]
          | null => simp [semanticallyIncomplete, hgf, ht2]
          | obj fs => simp [semanticallyIncomplete, hgf, ht2]
          | arr l =>
            by_cases hlen : l.length = 0
            · simp [semanticallyIncomplete, hgf, ht2, hlen, List.length_eq_zero.mp hlen]
            · have hne : l ≠ [] := fun hh => hlen (by simp [hh])
              cases hok : l.mapM validateItem with
              | ok its =>
                have hok2 : List.mapM.loop validateItem l [] = Except.ok its := hok
                simp [semanticallyIncomplete, hgf, ht2, hlen, hok2, List.isEmpty_iff, hne]
              | error e =>
                have he := mapM_validateItem_error l e hok
                subst he
                have hok2 : List.mapM.loop validateItem l [] =
                    Except.error InvErr.typeError := hok
                simp [semanticallyIncomplete, hgf, ht2, hlen, hok2, List.isEmpty_iff, hne]
  · intro j items hgf htr hlen hheads
    obtain ⟨its, hok, hall⟩ := mapM_validateItem_ok items hheads
    refine ⟨⟨toNumberJS (getField j "total"), its⟩, ?_, rfl, ?_, ?_⟩
    · rw [validateInvoiceData_some, if_neg (by simp [htr]), hgf]
      have hok2 : List.mapM.loop validateItem items [] = Except.ok its := hok
      simp [hlen, hok2]
    · exact mapM_validateItem_length items its hok
    · exact hall

theorem noUpper_findFrom_bizNone (t : Str) (h : ∀ c ∈ t, upperChar c = false) :
    ∀ fuel i, findFrom businessNameM t i fuel = none := by
  intro fuel
  induction fuel with
  | zero => intro i; rfl
  | succ f ih =>
    intro i
    rw [findFrom]
    split
    · rfl
    · have hmh : matchHere businessNameM t i = none := by
        unfold matchHere businessNameM groupM seqM charM
        cases hdrop : t.drop i with
        | nil => simp [hdrop]
        | cons c rest =>
          have hc : upperChar c = false :=
            h c (List.drop_subset i t (hdrop ▸ List.mem_cons_self c rest))
          simp [hdrop, hc]
      rw [hmh]
      exact ih (i + 1)

theorem replaceFirst_subset (t pat : Str) : ∀ c ∈ replaceFirst t pat, c ∈ t := by
  intro c hc
  unfold replaceFirst at hc
  cases hf : findSubIdx t pat with
  | none => rw [hf] at hc; exact hc
  | some i =>
    rw [hf] at hc
    rcases List.mem_append.mp hc with h1 | h2
    · exact List.take_subset i t h1
    · exact List.drop_subset (i + pat.length) t h2

theorem createTitle_of_noUpper (text amt : Str) (h : ∀ c ∈ text, upperChar c = false) :
    (∃ cap, merchantLoop merchantPatterns (replaceFirst text amt) = some cap ∧
      createTitle text amt = trimStr cap) ∨ createTitle text amt = "Expense".data := by
  cases hm : merchantLoop merchantPatterns (replaceFirst text amt) with
  | some cap =>
    left
    refine ⟨cap, rfl, ?_⟩
    simp only [createTitle]
    rw [hm]
  | none =>
    right
    simp only [createTitle]
    rw [hm]
    have hbiz : captureOf businessNameM (replaceFirst text amt) = none := by
      unfold captureOf
      rw [noUpper_findFrom_bizNone _ (fun c hc => h c (replaceFirst_subset text amt c hc)) _ 0]
    rw [hbiz]

/-- C10: every line item built by the multi-candidate loop has as title
either the trimmed capture of one of the three merchant-phrase patterns on
its lowercased context window (with the matched amount text removed), or
the literal `Expense`: since the window is lowercased first, the
capitalized business-name fallback can never match. -/
theorem buildItems_title_merchant_or_expense (t : Str) (item : ExpenseItem)
    (h : item ∈ buildItems t (extractAmounts t) (totalAmountOf (extractAmounts t))) :
    (∃ m ∈ extractAmounts t, ∃ cap,
        merchantLoop merchantPatterns (replaceFirst (surroundingOf t m) m.text) = some cap ∧
        item.title = trimStr cap) ∨
      item.title = "Expense".data := by
  unfold buildItems at h
  rw [List.mem_map] at h
  obtain ⟨m, hm, rfl⟩ := h
  have hmem : m ∈ extractAmounts t := (List.mem_filter.mp hm).1
  have hlow : ∀ c ∈ surroundingOf t m, upperChar c = false := by
    intro c hc
    unfold surroundingOf toLowerStr at hc
    rw [List.mem_map] at hc
    obtain ⟨c0, _, rfl⟩ := hc
    exact toLowerChar_not_upper c0
  simp only [mkItem_title]
  rcases createTitle_of_noUpper (surroundingOf t m) m.text hlow with ⟨cap, hcap, he⟩ | he
  · left
    exact ⟨m, hmem, cap, hcap, he⟩
  · right
    exact he

/-- Witness for the two-candidate theorem: `$45.00 $45.00` has exactly two
candidates and both are retained. -/
theorem handleGetEmailExpense_two_candidates_witness :
    (extractAmounts "$45.00 $45.00".data).length = 2 ∧
    (∃ d, handleGetEmailExpense "$45.00 $45.00".data = some d ∧
      d.items.map ExpenseItem.amount = (extractAmounts "$45.00 $45.00".data).map Cand.amount ∧
      d.items.length = 2) :=
  ⟨by with_unfolding_all decide,
   handleGetEmailExpense_two_candidates _ (by with_unfolding_all decide)⟩

/-- Witness for the single-distinct-value theorem at the one-candidate text
`$45.00`. -/
theorem handleGetEmailExpense_single_value_synthetic_witness :
    handleGetEmailExpense "$45.00".data =
      some ⟨totalAmountOf (extractAmounts "$45.00".data),
        [⟨totalAmountOf (extractAmounts "$45.00".data), "Expense from email".data,
          "unknown"⟩]⟩ :=
  handleGetEmailExpense_single_value_synthetic _ (by with_unfolding_all decide)
    (by with_unfolding_all decide) (by with_unfolding_all decide)

/-- Witness for the more-than-two-candidate theorem at `$1.00 $2.00 $3.00`. -/
theorem handleGetEmailExpense_gt_two_candidates_witness :
    2 < (extractAmounts "$1.00 $2.00 $3.00".data).length ∧
    (∃ d, handleGetEmailExpense "$1.00 $2.00 $3.00".data = some d ∧
      d.items.map ExpenseItem.amount =
        (if (extractAmounts "$1.00 $2.00 $3.00".data).filter
            (fun m => !decide (m.amount = totalAmountOf (extractAmounts "$1.00 $2.00 $3.00".data))) = []
         then [totalAmountOf (extractAmounts "$1.00 $2.00 $3.00".data)]
         else ((extractAmounts "$1.00 $2.00 $3.00".data).filter
            (fun m => !decide (m.amount =
              totalAmountOf (extractAmounts "$1.00 $2.00 $3.00".data)))).map Cand.amount) ∧
      (2 ≤ d.items.length → d.total = (d.items.map ExpenseItem.amount).sum) ∧
      ((extractAmounts "$1.00 $2.00 $3.00".data).filter
          (fun m => !decide (m.amount =
            totalAmountOf (extractAmounts "$1.00 $2.00 $3.00".data))) = [] →
        d.total = totalAmountOf (extractAmounts "$1.00 $2.00 $3.00".data)) ∧
      (∀ m0, (extractAmounts "$1.00 $2.00 $3.00".data).filter
          (fun m => !decide (m.amount =
            totalAmountOf (extractAmounts "$1.00 $2.00 $3.00".data))) = [m0] →
        1 / 100 < |m0.amount - totalAmountOf (extractAmounts "$1.00 $2.00 $3.00".data)| →
        d.total = totalAmountOf (extractAmounts "$1.00 $2.00 $3.00".data))) :=
  ⟨by with_unfolding_all decide,
   handleGetEmailExpense_gt_two_candidates _ (by with_unfolding_all decide)⟩

/-- Witness for the success invariants: text `$45.00` and a structured
result with total 3 and one item. -/
theorem extraction_success_invariants_witness :
    (([(⟨45, "Expense from email".data, "unknown"⟩ : ExpenseItem)] : List ExpenseItem) ≠ [] ∧
      (0 : ℚ) < 45) ∧
    ([(⟨some 1, some (Json.str "x"), "food"⟩ : InvoiceItem)] : List InvoiceItem) ≠ [] :=
  ⟨extraction_success_invariants.1 "$45.00".data
      ⟨45, [⟨45, "Expense from email".data, "unknown"⟩]⟩ (by with_unfolding_all rfl),
   extraction_success_invariants.2
      (some (Json.obj [("total", Json.num 3),
        ("items", Json.arr [Json.obj [("amount", Json.num 1), ("title", Json.str "x"),
          ("head", Json.str "food")]])]))
      ⟨some 3, [⟨some 1, some (Json.str "x"), "food"⟩]⟩ (by with_unfolding_all rfl)⟩

/-- Witness for the validation characterization: a structured result with a
truthy numeric total and one item with the out-of-vocabulary category
`Groceries`, which is clamped to `unknown`. -/
theorem validateInvoiceData_characterization_witness :
    ∃ d, validateInvoiceData (some (Json.obj [("total", Json.num 7),
        ("items", Json.arr [Json.obj [("amount", Json.num 2), ("title", Json.str "milk"),
          ("head", Json.str "Groceries")]])])) = Except.ok d ∧
      d.total = toNumberJS (getField (Json.obj [("total", Json.num 7),
        ("items", Json.arr [Json.obj [("amount", Json.num 2), ("title", Json.str "milk"),
          ("head", Json.str "Groceries")]])]) "total") ∧
      d.items.length = ([Json.obj [("amount", Json.num 2), ("title", Json.str "milk"),
          ("head", Json.str "Groceries")]] : List Json).length ∧
      ∀ x ∈ d.items, x.head ∈ validHeads :=
  validateInvoiceData_characterization.2 _ _ (by with_unfolding_all rfl)
    (by with_unfolding_all rfl) (by decide)
    (by
      intro it hit
      rw [List.mem_singleton] at hit
      subst hit
      exact ⟨"Groceries", rfl⟩)

/-- Witness for the title theorem: the first item built from
`$45.00 $45.00` is in the loop output and its title is `Expense`. -/
theorem buildItems_title_merchant_or_expense_witness :
    ((⟨45, "Expense".data, "unknown"⟩ : ExpenseItem) ∈
      buildItems "$45.00 $45.00".data (extractAmounts "$45.00 $45.00".data)
        (totalAmountOf (extractAmounts "$45.00 $45.00".data))) ∧
    ((∃ m ∈ extractAmounts "$45.00 $45.00".data, ∃ cap,
        merchantLoop merchantPatterns
          (replaceFirst (surroundingOf "$45.00 $45.00".data m) m.text) = some cap ∧
        (⟨45, "Expense".data, "unknown"⟩ : ExpenseItem).title = trimStr cap) ∨
      (⟨45, "Expense".data, "unknown"⟩ : ExpenseItem).title = "Expense".data) := by
  have hb : buildItems "$45.00 $45.00".data (extractAmounts "$45.00 $45.00".data)
      (totalAmountOf (extractAmounts "$45.00 $45.00".data)) =
      [⟨45, "Expense".data, "unknown"⟩, ⟨45, "Expense".data, "unknown"⟩] := by
    with_unfolding_all rfl
  have hmem : (⟨45, "Expense".data, "unknown"⟩ : ExpenseItem) ∈
      buildItems "$45.00 $45.00".data (extractAmounts "$45.00 $45.00".data)
        (totalAmountOf (extractAmounts "$45.00 $45.00".data)) := by
    rw [hb]
    simp
  exact ⟨hmem, buildItems_title_merchant_or_expense _ _ hmem⟩
